import Mathlib

/-!
Verification development for the asset-loading core of the bunny boilerplate
repository.  The definitions below are a shallow embedding of
`src/core/AssetManager.js`; each definition carries a note naming the source
lines it translates.  JavaScript objects are modelled as insertion-ordered
association lists, promises as explicit gate values, and the floating-point
progress accumulator as an exact rational.
-/

/-! ## JavaScript object maps

A JS object literal is an insertion-ordered map with string keys.
`objSet` is property assignment (`m[k] = v`): an existing key keeps its
position and gets the new value, a fresh key is appended.  `objGet` is
property lookup. -/

def objSet {α : Type} : List (String × α) → String → α → List (String × α)
  | [], k, v => [(k, v)]
  | p :: rest, k, v => if p.1 = k then (k, v) :: rest else p :: objSet rest k v

def objGet {α : Type} : List (String × α) → String → Option α
  | [], _ => none
  | p :: rest, k => if p.1 = k then some p.2 else objGet rest k

/-! ## String primitives

`String.prototype.split(".")` and `String.prototype.replace(pat, "")`
(which replaces only the first occurrence) are re-implemented structurally
over character lists so that they evaluate inside the kernel. -/

def startsWithList : List Char → List Char → Bool
  | [], _ => true
  | _ :: _, [] => false
  | p :: ps, c :: cs => (p == c) && startsWithList ps cs

def removeFirstOcc (pat : List Char) : List Char → List Char
  | [] => []
  | c :: cs =>
    if startsWithList pat (c :: cs) then List.drop pat.length (c :: cs)
    else c :: removeFirstOcc pat cs

def splitOnDotAux : List Char → List Char → List (List Char)
  | [], acc => [acc.reverse]
  | c :: cs, acc =>
    if c == '.' then acc.reverse :: splitOnDotAux cs []
    else splitOnDotAux cs (c :: acc)

/-- JS `s.split(".")`: split on every dot; never returns an empty list. -/
def strSplitDot (s : String) : List String := (splitOnDotAux s.data []).map String.mk

/-- JS `s.replace(pat, "")` with a string pattern: remove the first occurrence
of `pat` from `s` (no-op when `pat` does not occur). -/
def removeFirstStr (s pat : String) : String := String.mk (removeFirstOcc pat.data s.data)

/-! ## Extension tables (AssetManager.js lines 8-11) -/

def IMG_EXTENSIONS : List String := ["jpeg", "jpg", "png"]

def SOUND_EXTENSIONS : List String := ["wav", "ogg", "m4a", "mp3"]

def FONT_EXTENSIONS : List String := ["xml", "fnt"]

def SPRITESHEET_EXTENSIONS : List String := ["json"]

/-! ## Values stored in the manager maps -/

/-- Runtime values that can appear in the five manager maps or in a load
request: plain url strings (manifest entries), `Howl` sound objects
(`new Howl({src:[url]})`, line 210), spritesheet frame descriptors
(objects with `meta.image`), parsed `Spritesheet` objects
(`new Spritesheet(resource.texture, descriptor)`, line 159; the first field
records the name of the resource whose texture was used), and the JS
`undefined` value. -/
inductive JsVal where
  | url : String → JsVal
  | howl : JsVal → JsVal
  | data : String → JsVal
  | sheet : String → JsVal → JsVal
  | undef : JsVal
deriving DecidableEq

/-- The mutable state of the `AssetManager` singleton: the combined manifest
`_assets` and the four category maps (constructor, lines 20-30). -/
structure AMState where
  assets : List (String × JsVal)
  images : List (String × JsVal)
  sounds : List (String × JsVal)
  fonts : List (String × JsVal)
  spritesheets : List (String × JsVal)
deriving DecidableEq

def emptyAM : AMState := ⟨[], [], [], [], []⟩

/-! ## Manifest scan (`_importAssets`, lines 223-249)

The scanned file set comes from the bundler glob of `/src/assets/**/*.*`;
it is an arbitrary list of path strings here.  For each file the code runs
`let [id, ext] = filename.split(".")`, so `id` is the text before the first
dot and `ext` is the text between the first and second dots (not the final
extension), then strips the asset-root prefixes. -/

def fileParts (filename : String) : List String := strSplitDot filename

/-- `parts[0].replace("/src/assets/", "")` (line 227). -/
def fileId (filename : String) : String :=
  removeFirstStr ((fileParts filename).headD "") "/src/assets/"

/-- `filename.replace("src/assets/", "")` (line 228); note the pattern has no
leading slash, so a leading slash survives in the url. -/
def fileUrl (filename : String) : String := removeFirstStr filename "src/assets/"

/-- The `ext` binding of line 225: the second dot-separated segment, or JS
`undefined` when the filename contains no dot. -/
def firstExtSeg (filename : String) : Option String := (fileParts filename)[1]?

/-- The conventional file extension (text after the last dot), used by the
spec when it speaks about classification by extension. -/
def fileExtension (filename : String) : Option String :=
  let parts := fileParts filename
  if 2 ≤ parts.length then parts.getLast? else none

/-- `LIST.indexOf(ext) > -1` where `ext` may be JS `undefined` (line 231 etc.);
`indexOf(undefined)` is `-1`. -/
def extMem (o : Option String) (l : List String) : Bool :=
  match o with
  | none => false
  | some e => l.contains e

/-- One iteration of the `Object.entries(assets).forEach` body of
`_importAssets` (lines 224-248): store the url in the combined map, then in
every category table whose extension list contains `ext`.  The four `if`
blocks are independent, exactly as in the source. -/
def importFile (st : AMState) (filename : String) : AMState :=
  let ext := firstExtSeg filename
  let id := fileId filename
  let url := fileUrl filename
  let st1 : AMState := { st with assets := objSet st.assets id (JsVal.url url) }
  let st2 : AMState :=
    if extMem ext IMG_EXTENSIONS then { st1 with images := objSet st1.images id (JsVal.url url) } else st1
  let st3 : AMState :=
    if extMem ext SOUND_EXTENSIONS then { st2 with sounds := objSet st2.sounds id (JsVal.url url) } else st2
  let st4 : AMState :=
    if extMem ext FONT_EXTENSIONS then { st3 with fonts := objSet st3.fonts id (JsVal.url url) } else st3
  if extMem ext SPRITESHEET_EXTENSIONS then { st4 with spritesheets := objSet st4.spritesheets id (JsVal.url url) } else st4

/-- The whole `_importAssets` scan over a file list, in bundler order. -/
def importAssets (files : List String) : AMState := files.foldl importFile emptyAM

/-! ## Categories and classification -/

inductive Category where
  | image
  | sound
  | font
  | spritesheet
deriving DecidableEq

def catMapOf : Category → AMState → List (String × JsVal)
  | .image, st => st.images
  | .sound, st => st.sounds
  | .font, st => st.fonts
  | .spritesheet, st => st.spritesheets

def extListOf : Category → List String
  | .image => IMG_EXTENSIONS
  | .sound => SOUND_EXTENSIONS
  | .font => FONT_EXTENSIONS
  | .spritesheet => SPRITESHEET_EXTENSIONS

/-- Classification of an `ext` segment by the fixed tables; `none` for an
unknown segment (which lands in the combined map only). -/
def classifySeg (o : Option String) : Option Category :=
  match o with
  | none => none
  | some e =>
    if IMG_EXTENSIONS.contains e then some .image
    else if SOUND_EXTENSIONS.contains e then some .sound
    else if FONT_EXTENSIONS.contains e then some .font
    else if SPRITESHEET_EXTENSIONS.contains e then some .spritesheet
    else none

/-- Classification of a scanned file, driven by the segment between the first
and second dots, as in the source. -/
def classifyFile (filename : String) : Option Category := classifySeg (firstExtSeg filename)

/-! ## Load requests (`load`, lines 51-95)

A `load()` argument is a JS object with up to four keys; a key can be
present with an empty map (as `Splash.preload` does for `sounds` and
`spritesheets`).  `none` models an absent key. -/

structure LoadRequest where
  images : Option (List (String × JsVal))
  sounds : Option (List (String × JsVal))
  fonts : Option (List (String × JsVal))
  spritesheets : Option (List (String × JsVal))
deriving DecidableEq

/-- `Object.keys(images).length` for a possibly-absent category
(`imagesCount` etc., lines 62-67). -/
def cnt (o : Option (List (String × JsVal))) : Nat := (o.getD []).length

/-- `assetTypesCount = Object.keys(assets).length` (line 61): the number of
keys present in the request object, whether or not their maps are empty. -/
def presentCount (r : LoadRequest) : Nat :=
  (if r.images.isSome then 1 else 0) + (if r.sounds.isSome then 1 else 0)
    + (if r.fonts.isSome then 1 else 0) + (if r.spritesheets.isSome then 1 else 0)

/-- The number of non-empty categories of a request — the quantity the spec
uses for the per-category weight. -/
def nonEmptyCount (r : LoadRequest) : Nat :=
  (if cnt r.images > 0 then 1 else 0) + (if cnt r.sounds > 0 then 1 else 0)
    + (if cnt r.fonts > 0 then 1 else 0) + (if cnt r.spritesheets > 0 then 1 else 0)

def presentNonEmptyField : Option (List (String × JsVal)) → Bool
  | none => true
  | some l => !l.isEmpty

/-- Holds when every category key present in the request has a non-empty map. -/
def presentNonEmptyB (r : LoadRequest) : Bool :=
  presentNonEmptyField r.images && presentNonEmptyField r.sounds
    && presentNonEmptyField r.fonts && presentNonEmptyField r.spritesheets

/-- The default parameter of `load` (lines 52-57): calling `load()` with no
argument substitutes the object built from the four manager maps. -/
def requestOf : Option LoadRequest → AMState → LoadRequest
  | some r, _ => r
  | none, st => ⟨some st.images, some st.sounds, some st.fonts, some st.spritesheets⟩

/-! ## Progress aggregation (`calcTotalProgress`, lines 69-74)

`loadProgress += val / assetTypesCount; progressCallback(parseInt(loadProgress, 10))`.
The accumulator is modelled exactly over `ℚ`; `parseInt` on a finite decimal
number truncates it toward zero. -/

/-- JS `parseInt(x, 10)` on a (finite, non-exponential) number: truncation
toward zero.  Written on the numerator and denominator so that it is
integer-division on the non-negative branch under every division
convention. -/
def jsParseInt (q : ℚ) : ℤ :=
  if 0 ≤ q.num then q.num / (q.den : ℤ) else -((-q.num) / (q.den : ℤ))

/-- One invocation of `calcTotalProgress` with raw argument `v`: the state is
the pair of the `loadProgress` accumulator and the list of values already
handed to `progressCallback`. -/
def calcStep (K : ℚ) (st : ℚ × List ℤ) (v : ℚ) : ℚ × List ℤ :=
  (st.1 + v / K, st.2 ++ [jsParseInt (st.1 + v / K)])

/-- Run a whole sequence of `calcTotalProgress` invocations from the initial
`loadProgress = 0`. -/
def runLoad (K : ℚ) (vals : List ℚ) : ℚ × List ℤ := vals.foldl (calcStep K) (0, [])

/-- Partial sums starting from `a` (one per element). -/
def prefixFrom (a : ℚ) : List ℚ → List ℚ
  | [] => []
  | v :: vs => (a + v) :: prefixFrom (a + v) vs

/-! ## Raw progress arguments produced by each category sub-loader

These encode what each dispatched sub-loader passes to its progress
callback, in per-category order; the scheduler below interleaves them.
The PIXI `Loader` (external collaborator) fires `onProgress` once per
completed resource and its cumulative `progress` field is `100 * k / n`
after `k` of `n` resources. -/

/-- Images (line 78): the callback `() => calcTotalProgress(100 / imagesCount)`
ignores the loader argument, so every one of the `n` events contributes the
constant `100 / n`. -/
def imagesVals (n : Nat) : List ℚ := List.replicate n ((100 : ℚ) / n)

/-- Sounds (line 143): a single synchronous call with the raw value `100`
(see `loadSoundsModel` below). -/
def soundsVals : List ℚ := [100]

/-- Fonts (line 87) and spritesheets (line 167): `calcTotalProgress` receives
the cumulative `loader.progress`, i.e. event `j` of `n` carries
`100 * j / n`. -/
def cumulativeVals (n : Nat) : List ℚ :=
  (List.range n).map (fun j : Nat => (100 : ℚ) * ((j : ℚ) + 1) / (n : ℚ))

/-- The per-category event queues dispatched by one `load()` call
(lines 76-92): a queue exists exactly for each non-empty category, in
dispatch order images, sounds, fonts, spritesheets. -/
def loadQueues (r : LoadRequest) : List (List ℚ) :=
  (if cnt r.images > 0 then [imagesVals (cnt r.images)] else [])
    ++ (if cnt r.sounds > 0 then [soundsVals] else [])
    ++ (if cnt r.fonts > 0 then [cumulativeVals (cnt r.fonts)] else [])
    ++ (if cnt r.spritesheets > 0 then [cumulativeVals (cnt r.spritesheets)] else [])

/-- Consume events from the queues following a schedule of queue indices.
Each step pops the head of the scheduled queue; indices of exhausted or
non-existent queues are skipped.  Returns the interleaved event trace and
the final queue state. -/
def consumeAux (qs : List (List ℚ)) : List Nat → List ℚ × List (List ℚ)
  | [] => ([], qs)
  | i :: rest =>
    match qs[i]? with
    | some (v :: vs) =>
      let r := consumeAux (qs.set i vs) rest
      (v :: r.1, r.2)
    | some [] => consumeAux qs rest
    | none => consumeAux qs rest

/-- A schedule drains the queues when every queue is empty afterwards: all
dispatched items have completed. -/
def drainsB (qs : List (List ℚ)) (sched : List Nat) : Bool :=
  ((consumeAux qs sched).2).all (fun l => l.isEmpty)

/-- The raw argument trace of one `load()` execution under a schedule. -/
def loadTrace (r : LoadRequest) (sched : List Nat) : List ℚ :=
  (consumeAux (loadQueues r) sched).1

/-- The `loadProgress` accumulator and reported progress values of one
`load()` execution under a schedule. -/
def loadRun (r : LoadRequest) (sched : List Nat) : ℚ × List ℤ :=
  runLoad ((presentCount r : ℚ)) (loadTrace r sched)

/-! ## Promise structure of `load` (lines 68-94)

`load` pushes one entry per non-empty category into `loadPromises` and
returns `Promise.all(loadPromises)`.  `loadAssets` and `loadSpritesheets`
return genuine promises; `loadSounds` returns the raw `soundPromises`
ARRAY (line 145), and `Promise.all` treats a non-thenable element (such as
an array) as already settled. -/

/-- Completion gates: the completion callback of the images `Loader`, of the
fonts `Loader`, of the spritesheets `Loader`, and the `load` event of one
`Howl` sound. -/
inductive Gate where
  | imagesDone
  | fontsDone
  | sheetsDone
  | soundLoaded : String → Gate
deriving DecidableEq

/-- A JS value handed to `Promise.all`: either a promise resolved by a gate,
or a plain array (which `Promise.all` does not await). -/
inductive JsAsync where
  | promiseOf : Gate → JsAsync
  | arrayOf : List JsAsync → JsAsync

/-- Whether `Promise.all` considers an element settled under an environment
that tells which gates have fired.  A non-thenable element — in particular
the array returned by `loadSounds` — is settled immediately. -/
def settledForPromiseAll (env : Gate → Bool) : JsAsync → Bool
  | .promiseOf g => env g
  | .arrayOf _ => true

/-- The value returned by `loadSounds` (line 145): the raw array of the
per-sound promises, each resolved by that sound firing its `load` event
(line 214; no reject path exists in `_loadSound`). -/
def soundsReturned (snds : List (String × JsVal)) : JsAsync :=
  JsAsync.arrayOf (snds.map (fun p => JsAsync.promiseOf (Gate.soundLoaded p.1)))

/-- The `loadPromises` list built by `load` (lines 76-92). -/
def loadPromises (r : LoadRequest) : List JsAsync :=
  (if cnt r.images > 0 then [JsAsync.promiseOf Gate.imagesDone] else [])
    ++ (if cnt r.sounds > 0 then [soundsReturned (r.sounds.getD [])] else [])
    ++ (if cnt r.fonts > 0 then [JsAsync.promiseOf Gate.fontsDone] else [])
    ++ (if cnt r.spritesheets > 0 then [JsAsync.promiseOf Gate.sheetsDone] else [])

/-- Whether the promise returned by `load` (line 94, `Promise.all`) is
resolved under a gate environment. -/
def loadResolvedB (env : Gate → Bool) (r : LoadRequest) : Bool :=
  (loadPromises r).all (settledForPromiseAll env)

/-- Whether every sound of a request has actually finished loading. -/
def soundsSettledB (env : Gate → Bool) (snds : List (String × JsVal)) : Bool :=
  snds.all (fun p => env (Gate.soundLoaded p.1))

/-! ## Sub-loader state effects -/

/-- The dispatch-time state effect of `loadSounds`/`_loadSound`
(lines 138-140 and 209-215): for every entry, a `Howl` is created and stored
into `_sounds[id]` immediately, before the sound has loaded. -/
def storeSounds (snds : List (String × JsVal)) (st : AMState) : AMState :=
  snds.foldl (fun s p => { s with sounds := objSet s.sounds p.1 (JsVal.howl p.2) }) st

/-- The synchronous state effect of one `load()` call on the manager maps
(lines 76-92): only the sounds branch writes state at dispatch time; the
other sub-loaders touch no manager map when dispatched. -/
def dispatchEffects (r : LoadRequest) (st : AMState) : AMState :=
  match r.sounds with
  | some snds => if cnt (some snds) > 0 then storeSounds snds st else st
  | none => st

/-- Result of dispatching `loadSounds` (lines 135-146). -/
structure SoundsDispatch where
  state : AMState
  syncProgressCalls : List ℚ
  thenHandlerRegistered : Bool
  returned : JsAsync

/-- Translation of `loadSounds` (lines 135-146).  The statement
`Promise.all(soundPromises).then(progressCallback(100))` evaluates the
argument `progressCallback(100)` immediately — JS evaluates call arguments
eagerly — so the raw value `100` is reported synchronously at dispatch
time; the result of that call (`undefined`, not a function) is what is
passed to `.then`, so no handler runs when the sounds actually finish. -/
def loadSoundsModel (snds : List (String × JsVal)) (st : AMState) : SoundsDispatch :=
  { state := storeSounds snds st
  , syncProgressCalls := [100]
  , thenHandlerRegistered := false
  , returned := soundsReturned snds }

/-- Result of dispatching `loadAssets` (lines 102-112): the fresh PIXI
`Loader` with the resources added to it (`loader.add(img, url)`, keyed by
the requested id) and the manager state, which `loadAssets` never writes.
The registered `onProgress` handler only forwards a progress number, so
completion of the loader performs no manager-map write either. -/
structure AssetsDispatch where
  loader : List (String × JsVal)
  state : AMState
deriving DecidableEq

def loadAssetsModel (items : List (String × JsVal)) (st : AMState) : AssetsDispatch :=
  { loader := items, state := st }

/-- The manager-state effect of the images/fonts `Loader` completing all of
its resources: the handlers registered by `loadAssets` perform no writes to
any manager map (the decoded textures stay inside the PIXI loader), so the
state is unchanged. -/
def loadAssetsCompleteStep (st : AMState) : AMState := st

/-- `data.meta.image` of a spritesheet request entry (line 155); `undefined`
when the entry is not a descriptor object. -/
def metaImageOf : JsVal → Option String
  | .data s => some s
  | _ => none

/-- Result of dispatching `loadSpritesheets` (lines 151-156): the fresh PIXI
`Loader` holds one resource per request entry, registered under the
requested id with url `data.meta.image`. -/
structure SheetsDispatch where
  loader : List (String × Option String)
deriving DecidableEq

def loadSpritesheetsModel (sheets : List (String × JsVal)) : SheetsDispatch :=
  { loader := sheets.map (fun p => (p.1, metaImageOf p.2)) }

/-- The `onProgress` handler of `loadSpritesheets` (lines 158-169) for the
completion of the resource named `rname`: build
`new Spritesheet(resource.texture, spritesheets[resource.name])` and store
it into `_spritesheets[resource.name]`.  The PIXI loader names each
resource by the key given to `loader.add`, i.e. the requested id. -/
def sheetProgressStep (sheets : List (String × JsVal)) (st : AMState) (rname : String) : AMState :=
  { st with spritesheets :=
      objSet st.spritesheets rname (JsVal.sheet rname ((objGet sheets rname).getD JsVal.undef)) }

/-! ## Helper lemmas: object maps -/

lemma objGet_objSet_self {α : Type} (m : List (String × α)) (k : String) (v : α) :
    objGet (objSet m k v) k = some v := by
  induction m with
  | nil => simp [objSet, objGet]
  | cons p rest ih =>
    by_cases h : p.1 = k
    · simp [objSet, h, objGet]
    · simp [objSet, h, objGet, ih]

lemma objGet_objSet_ne {α : Type} (m : List (String × α)) (k k2 : String) (v : α)
    (h : k2 ≠ k) : objGet (objSet m k v) k2 = objGet m k2 := by
  induction m with
  | nil => simp [objSet, objGet, Ne.symm h]
  | cons p rest ih =>
    by_cases hp : p.1 = k
    · simp [objSet, hp, objGet, Ne.symm h, hp.symm ▸ (Ne.symm h : k ≠ k2)]
    · simp [objSet, hp, objGet, ih]

/-! ## Helper lemmas: jsParseInt -/

lemma jsParseInt_eq_floor (q : ℚ) (h : 0 ≤ q) : jsParseInt q = ⌊q⌋ := by
  rw [jsParseInt, if_pos (Rat.num_nonneg.mpr h), Rat.floor_def]

lemma jsParseInt_mono (a b : ℚ) (h0 : 0 ≤ a) (h : a ≤ b) : jsParseInt a ≤ jsParseInt b := by
  rw [jsParseInt_eq_floor a h0, jsParseInt_eq_floor b (le_trans h0 h)]
  exact Int.floor_le_floor h

/-! ## Helper lemmas: prefix sums and the report list -/

lemma prefixFrom_map_div (c : ℚ) (l : List ℚ) :
    ∀ a : ℚ, prefixFrom (a / c) (l.map (fun x => x / c)) = (prefixFrom a l).map (fun x => x / c) := by
  induction l with
  | nil => intro a; simp [prefixFrom]
  | cons v vs ih =>
    intro a
    simp only [List.map_cons, prefixFrom, div_add_div_same, ih (a + v)]

lemma prefixFrom_getLast (l : List ℚ) :
    ∀ a : ℚ, l ≠ [] → (prefixFrom a l).getLast? = some (a + l.sum) := by
  induction l with
  | nil => intro a h; exact absurd rfl h
  | cons v vs ih =>
    intro a _
    rcases vs with _ | ⟨w, ws⟩
    · simp [prefixFrom]
    · have h2 := ih (a + v) (List.cons_ne_nil w ws)
      rw [show prefixFrom a (v :: w :: ws)
            = (a + v) :: (a + v + w) :: prefixFrom (a + v + w) ws from rfl,
          List.getLast?_cons_cons,
          show ((a + v + w) :: prefixFrom (a + v + w) ws)
            = prefixFrom (a + v) (w :: ws) from rfl,
          h2]
      simp [List.sum_cons]
      ring

lemma runLoad_foldl (K : ℚ) (vals : List ℚ) :
    ∀ (a : ℚ) (out : List ℤ),
      (vals.foldl (calcStep K) (a, out)).2
        = out ++ (prefixFrom a (vals.map (fun v => v / K))).map jsParseInt := by
  induction vals with
  | nil => intro a out; simp [prefixFrom]
  | cons v vs ih =>
    intro a out
    rw [List.foldl_cons]
    rw [show calcStep K (a, out) v
          = (a + v / K, out ++ [jsParseInt (a + v / K)]) from rfl]
    rw [ih (a + v / K) (out ++ [jsParseInt (a + v / K)])]
    simp [prefixFrom]

lemma runLoad_reports (K : ℚ) (vals : List ℚ) :
    (runLoad K vals).2 = (prefixFrom 0 vals).map (fun s => jsParseInt (s / K)) := by
  rw [runLoad, runLoad_foldl K vals 0 [], List.nil_append]
  calc (prefixFrom 0 (vals.map (fun v => v / K))).map jsParseInt
      = (prefixFrom (0 / K) (vals.map (fun v => v / K))).map jsParseInt := by rw [zero_div]
    _ = ((prefixFrom 0 vals).map (fun x => x / K)).map jsParseInt := by
        rw [prefixFrom_map_div]
    _ = (prefixFrom 0 vals).map (fun s => jsParseInt (s / K)) := by
        rw [List.map_map]; rfl

/-! ## Helper lemmas: interleaved consumption of the event queues -/

lemma set_sum_sub (qs : List (List ℚ)) :
    ∀ (i : Nat) (v : ℚ) (vs : List ℚ), qs[i]? = some (v :: vs) →
      ((qs.set i vs).map List.sum).sum + v = (qs.map List.sum).sum := by
  induction qs with
  | nil => intro i v vs h; simp at h
  | cons q qt ih =>
    intro i v vs h
    cases i with
    | zero =>
      simp only [List.getElem?_cons_zero, Option.some.injEq] at h
      subst h
      simp [List.sum_cons]
      ring
    | succ n =>
      simp only [List.getElem?_cons_succ] at h
      have h2 := ih n v vs h
      simp only [List.set_cons_succ, List.map_cons, List.sum_cons]
      linarith

lemma consumeAux_sum (sched : List Nat) :
    ∀ qs : List (List ℚ),
      (consumeAux qs sched).1.sum + ((consumeAux qs sched).2.map List.sum).sum
        = (qs.map List.sum).sum := by
  induction sched with
  | nil => intro qs; simp [consumeAux]
  | cons i rest ih =>
    intro qs
    rcases h : qs[i]? with _ | l
    · simpa [consumeAux, h] using ih qs
    · rcases l with _ | ⟨v, vs⟩
      · simpa [consumeAux, h] using ih qs
      · have hs := set_sum_sub qs i v vs h
        have h2 := ih (qs.set i vs)
        simp only [consumeAux, h, List.sum_cons]
        linarith

lemma consumeAux_nonneg (sched : List Nat) :
    ∀ qs : List (List ℚ), (∀ l ∈ qs, ∀ x ∈ l, (0:ℚ) ≤ x) →
      ∀ x ∈ (consumeAux qs sched).1, 0 ≤ x := by
  induction sched with
  | nil => intro qs _ x hx; simp [consumeAux] at hx
  | cons i rest ih =>
    intro qs hq x hx
    rcases h : qs[i]? with _ | l
    · exact ih qs hq x (by simpa [consumeAux, h] using hx)
    · rcases l with _ | ⟨v, vs⟩
      · exact ih qs hq x (by simpa [consumeAux, h] using hx)
      · simp only [consumeAux, h, List.mem_cons] at hx
        rcases hx with rfl | hx
        · exact hq _ (List.getElem?_mem h) x (by simp)
        · refine ih (qs.set i vs) ?_ x hx
          intro l2 hl2 y hy
          rcases List.mem_or_eq_of_mem_set hl2 with h2 | rfl
          · exact hq l2 h2 y hy
          · exact hq _ (List.getElem?_mem h) y (by simp [hy])

lemma consumeAux_fst_nil (sched : List Nat) :
    ∀ qs : List (List ℚ), (consumeAux qs sched).1 = [] → (consumeAux qs sched).2 = qs := by
  induction sched with
  | nil => intro qs _; simp [consumeAux]
  | cons i rest ih =>
    intro qs h
    rcases hq : qs[i]? with _ | l
    · simp only [consumeAux, hq] at h ⊢
      exact ih qs h
    · rcases l with _ | ⟨v, vs⟩
      · simp only [consumeAux, hq] at h ⊢
        exact ih qs h
      · simp [consumeAux, hq] at h

/-! ## Helper lemmas: the event queues of a request -/

lemma mem_if_singleton {c : Prop} [Decidable c] {a l : List ℚ}
    (h : l ∈ (if c then [a] else [])) : c ∧ l = a := by
  split at h
  next hc => exact ⟨hc, by simpa using h⟩
  next => simp at h

lemma length_if_singleton {c : Prop} [Decidable c] (a : List ℚ) :
    (if c then [a] else []).length = if c then 1 else 0 := by
  split <;> simp

lemma loadQueues_mem (r : LoadRequest) (l : List ℚ) (hl : l ∈ loadQueues r) :
    (0 < cnt r.images ∧ l = imagesVals (cnt r.images))
    ∨ (0 < cnt r.sounds ∧ l = soundsVals)
    ∨ (0 < cnt r.fonts ∧ l = cumulativeVals (cnt r.fonts))
    ∨ (0 < cnt r.spritesheets ∧ l = cumulativeVals (cnt r.spritesheets)) := by
  rw [loadQueues] at hl
  simp only [List.mem_append] at hl
  rcases hl with ((h | h) | h) | h
  · exact Or.inl (mem_if_singleton h)
  · exact Or.inr (Or.inl (mem_if_singleton h))
  · exact Or.inr (Or.inr (Or.inl (mem_if_singleton h)))
  · exact Or.inr (Or.inr (Or.inr (mem_if_singleton h)))

lemma imagesVals_sum (n : Nat) (h : 0 < n) : (imagesVals n).sum = 100 := by
  have hn : (n : ℚ) ≠ 0 := Nat.cast_ne_zero.mpr (Nat.pos_iff_ne_zero.mp h)
  rw [imagesVals, List.sum_replicate, nsmul_eq_mul, mul_comm]
  exact div_mul_cancel₀ 100 hn

lemma cumulativeVals_one : cumulativeVals 1 = [100] := by
  rw [show cumulativeVals 1 = [(100 : ℚ) * ((0 : ℚ) + 1) / 1] from rfl]
  norm_num

lemma imagesVals_nonneg (n : Nat) : ∀ x ∈ imagesVals n, (0:ℚ) ≤ x := by
  intro x hx
  rw [List.eq_of_mem_replicate hx]
  exact div_nonneg (by norm_num) (Nat.cast_nonneg n)

lemma cumulativeVals_nonneg (n : Nat) : ∀ x ∈ cumulativeVals n, (0:ℚ) ≤ x := by
  intro x hx
  rw [cumulativeVals] at hx
  simp only [List.mem_map] at hx
  obtain ⟨j, _, rfl⟩ := hx
  exact div_nonneg (by positivity) (Nat.cast_nonneg n)

lemma imagesVals_ne_nil (n : Nat) (h : 0 < n) : imagesVals n ≠ [] := by
  have : (imagesVals n).length = n := List.length_replicate n _
  intro h2
  rw [h2] at this
  simp at this
  omega

lemma cumulativeVals_ne_nil (n : Nat) (h : 0 < n) : cumulativeVals n ≠ [] := by
  have : (cumulativeVals n).length = n := by
    rw [cumulativeVals, List.length_map, List.length_range]
  intro h2
  rw [h2] at this
  simp at this
  omega

lemma loadQueues_nonneg (r : LoadRequest) : ∀ l ∈ loadQueues r, ∀ x ∈ l, (0:ℚ) ≤ x := by
  intro l hl
  rcases loadQueues_mem r l hl with ⟨_, rfl⟩ | ⟨_, rfl⟩ | ⟨_, rfl⟩ | ⟨_, rfl⟩
  · exact imagesVals_nonneg _
  · intro x hx
    rw [soundsVals] at hx
    simp at hx
    rw [hx]
    norm_num
  · exact cumulativeVals_nonneg _
  · exact cumulativeVals_nonneg _

lemma loadQueues_sum (r : LoadRequest) (hf : cnt r.fonts ≤ 1) (hsp : cnt r.spritesheets ≤ 1) :
    ∀ l ∈ loadQueues r, l.sum = 100 := by
  intro l hl
  rcases loadQueues_mem r l hl with ⟨h, rfl⟩ | ⟨_, rfl⟩ | ⟨h, rfl⟩ | ⟨h, rfl⟩
  · exact imagesVals_sum _ h
  · rw [soundsVals]; simp
  · rw [Nat.le_antisymm hf h, cumulativeVals_one]; simp
  · rw [Nat.le_antisymm hsp h, cumulativeVals_one]; simp

lemma loadQueues_members_ne_nil (r : LoadRequest) : ∀ l ∈ loadQueues r, l ≠ [] := by
  intro l hl
  rcases loadQueues_mem r l hl with ⟨h, rfl⟩ | ⟨_, rfl⟩ | ⟨h, rfl⟩ | ⟨h, rfl⟩
  · exact imagesVals_ne_nil _ h
  · rw [soundsVals]; simp
  · exact cumulativeVals_ne_nil _ h
  · exact cumulativeVals_ne_nil _ h

lemma field_count (o : Option (List (String × JsVal))) (h : presentNonEmptyField o = true) :
    ((if cnt o > 0 then 1 else 0) : Nat) = if o.isSome then 1 else 0 := by
  cases o with
  | none => simp [cnt]
  | some l =>
    rw [presentNonEmptyField] at h
    have hl : l ≠ [] := by simpa using h
    have : 0 < l.length := List.length_pos.mpr hl
    simp [cnt, this]

lemma loadQueues_length (r : LoadRequest) (h : presentNonEmptyB r = true) :
    (loadQueues r).length = presentCount r := by
  rw [presentNonEmptyB] at h
  simp only [Bool.and_eq_true] at h
  obtain ⟨⟨⟨h1, h2⟩, h3⟩, h4⟩ := h
  rw [loadQueues, presentCount]
  simp only [List.length_append, length_if_singleton]
  rw [field_count _ h1, field_count _ h2, field_count _ h3, field_count _ h4]

/-! ## Helper lemmas: final progress value and monotonicity -/

lemma sum_of_all_100 (qs : List (List ℚ)) (h : ∀ l ∈ qs, l.sum = 100) :
    (qs.map List.sum).sum = 100 * qs.length := by
  induction qs with
  | nil => simp
  | cons q qt ih =>
    simp only [List.map_cons, List.sum_cons, List.length_cons]
    rw [h q (by simp), ih (fun l hl => h l (by simp [hl]))]
    push_cast
    ring

lemma leftover_zero (L : List (List ℚ)) (h : ∀ l ∈ L, l.isEmpty = true) :
    (L.map List.sum).sum = 0 := by
  induction L with
  | nil => simp
  | cons q qt ih =>
    have hq : q = [] := by simpa using h q (by simp)
    simp only [List.map_cons, List.sum_cons, hq]
    rw [ih (fun l hl => h l (by simp [hl]))]
    simp

lemma final_report_100 (K : Nat) (qs : List (List ℚ)) (sched : List Nat)
    (hK : qs.length = K) (hpos : 0 < K)
    (hsum : ∀ l ∈ qs, l.sum = 100)
    (hne : ∀ l ∈ qs, l ≠ [])
    (hd : drainsB qs sched = true) :
    ((runLoad (K : ℚ) (consumeAux qs sched).1).2).getLast? = some 100 := by
  have hdrain : ∀ l ∈ (consumeAux qs sched).2, l.isEmpty = true := by
    rw [drainsB] at hd
    simpa [List.all_eq_true] using hd
  have hts : (consumeAux qs sched).1.sum = 100 * K := by
    have h1 := consumeAux_sum sched qs
    rw [leftover_zero _ hdrain, add_zero, sum_of_all_100 qs hsum, hK] at h1
    exact h1
  have htne : (consumeAux qs sched).1 ≠ [] := by
    intro hnil
    have h2 := consumeAux_fst_nil sched qs hnil
    have hq1 : qs ≠ [] := by
      intro h0
      rw [h0] at hK
      simp at hK
      omega
    rcases hqs : qs with _ | ⟨q, qt⟩
    · exact hq1 hqs
    · have hmem : q ∈ qs := by rw [hqs]; simp
      have he : q.isEmpty = true := by
        apply hdrain
        rw [h2]
        exact hmem
      have : q = [] := by simpa using he
      exact hne q hmem this
  have hKne : ((K : ℚ)) ≠ 0 := Nat.cast_ne_zero.mpr (Nat.pos_iff_ne_zero.mp hpos)
  rw [runLoad_reports]
  rw [List.getLast?_map]
  rw [prefixFrom_getLast _ 0 htne, hts]
  have hdiv : (0 + (100:ℚ) * K) / K = 100 := by
    rw [zero_add]
    exact mul_div_cancel_right₀ 100 hKne
  simp only [Option.map_some']
  rw [hdiv, jsParseInt_eq_floor 100 (by norm_num)]
  norm_num

lemma chain_map_jsParseInt (l : List ℚ) :
    ∀ a : ℚ, 0 ≤ a → (∀ v ∈ l, 0 ≤ v) →
      List.Chain' (· ≤ ·) ((prefixFrom a l).map jsParseInt) := by
  induction l with
  | nil => intro a _ _; simp [prefixFrom]
  | cons v vs ih =>
    intro a ha hv
    have hav : 0 ≤ a + v := add_nonneg ha (hv v (by simp))
    have htail := ih (a + v) hav (fun x hx => hv x (by simp [hx]))
    rcases vs with _ | ⟨w, ws⟩
    · simp [prefixFrom]
    · rw [show (prefixFrom a (v :: w :: ws)).map jsParseInt
            = jsParseInt (a + v)
              :: (prefixFrom (a + v) (w :: ws)).map jsParseInt from rfl]
      rw [List.chain'_cons']
      constructor
      · intro b hb
        rw [show (prefixFrom (a + v) (w :: ws)).map jsParseInt
              = jsParseInt (a + v + w)
                :: (prefixFrom (a + v + w) ws).map jsParseInt from rfl] at hb
        simp only [List.head?_cons, Option.mem_def, Option.some.injEq] at hb
        subst hb
        exact jsParseInt_mono _ _ hav (by
          have := hv w (by simp)
          linarith)
      · exact htail

lemma runLoad_chain (K : ℚ) (hK : 0 ≤ K) (vals : List ℚ) (h : ∀ v ∈ vals, 0 ≤ v) :
    List.Chain' (· ≤ ·) ((runLoad K vals).2) := by
  rw [runLoad, runLoad_foldl K vals 0 [], List.nil_append]
  apply chain_map_jsParseInt _ 0 le_rfl
  intro x hx
  simp only [List.mem_map] at hx
  obtain ⟨v, hv, rfl⟩ := hx
  exact div_nonneg (h v hv) hK

/-! ## Helper lemmas: sound storage -/

lemma storeSounds_other (snds : List (String × JsVal)) :
    ∀ st : AMState,
      (storeSounds snds st).assets = st.assets
      ∧ (storeSounds snds st).images = st.images
      ∧ (storeSounds snds st).fonts = st.fonts
      ∧ (storeSounds snds st).spritesheets = st.spritesheets := by
  induction snds with
  | nil => intro st; simp [storeSounds]
  | cons p rest ih =>
    intro st
    rw [show storeSounds (p :: rest) st
          = storeSounds rest { st with sounds := objSet st.sounds p.1 (JsVal.howl p.2) } from rfl]
    exact ih _

lemma storeSounds_preserve (snds : List (String × JsVal)) :
    ∀ (st : AMState) (id : String), id ∉ snds.map Prod.fst →
      objGet (storeSounds snds st).sounds id = objGet st.sounds id := by
  induction snds with
  | nil => intro st id _; rfl
  | cons p rest ih =>
    intro st id hid
    simp only [List.map_cons, List.mem_cons] at hid
    push_neg at hid
    rw [show storeSounds (p :: rest) st
          = storeSounds rest { st with sounds := objSet st.sounds p.1 (JsVal.howl p.2) } from rfl]
    rw [ih _ id hid.2]
    exact objGet_objSet_ne st.sounds p.1 id (JsVal.howl p.2) hid.1

lemma storeSounds_mem (snds : List (String × JsVal)) :
    ∀ (st : AMState) (p : String × JsVal), p ∈ snds → (snds.map Prod.fst).Nodup →
      objGet (storeSounds snds st).sounds p.1 = some (JsVal.howl p.2) := by
  induction snds with
  | nil => intro st p hp _; simp at hp
  | cons q rest ih =>
    intro st p hp hnd
    simp only [List.map_cons, List.nodup_cons] at hnd
    rw [show storeSounds (q :: rest) st
          = storeSounds rest { st with sounds := objSet st.sounds q.1 (JsVal.howl q.2) } from rfl]
    rcases List.mem_cons.mp hp with rfl | hp2
    · rw [storeSounds_preserve rest _ p.1 (by
        intro hmem
        exact hnd.1 hmem)]
      exact objGet_objSet_self st.sounds p.1 (JsVal.howl p.2)
    · exact ih _ p hp2 hnd.2

/-! ## Helper lemmas: classification -/

lemma contains_mem_iff (l : List String) (e : String) : l.contains e = true ↔ e ∈ l := by
  simp

lemma sound_mem_not_img (e : String) (h : e ∈ SOUND_EXTENSIONS) : e ∉ IMG_EXTENSIONS := by
  rw [SOUND_EXTENSIONS] at h
  simp only [List.mem_cons, List.not_mem_nil, or_false] at h
  rcases h with rfl | rfl | rfl | rfl <;> decide

lemma font_mem_not_img (e : String) (h : e ∈ FONT_EXTENSIONS) : e ∉ IMG_EXTENSIONS := by
  rw [FONT_EXTENSIONS] at h
  simp only [List.mem_cons, List.not_mem_nil, or_false] at h
  rcases h with rfl | rfl <;> decide

lemma font_mem_not_sound (e : String) (h : e ∈ FONT_EXTENSIONS) : e ∉ SOUND_EXTENSIONS := by
  rw [FONT_EXTENSIONS] at h
  simp only [List.mem_cons, List.not_mem_nil, or_false] at h
  rcases h with rfl | rfl <;> decide

lemma sheet_mem_not_img (e : String) (h : e ∈ SPRITESHEET_EXTENSIONS) : e ∉ IMG_EXTENSIONS := by
  rw [SPRITESHEET_EXTENSIONS] at h
  simp only [List.mem_cons, List.not_mem_nil, or_false] at h
  rcases h with rfl
  decide

lemma sheet_mem_not_sound (e : String) (h : e ∈ SPRITESHEET_EXTENSIONS) : e ∉ SOUND_EXTENSIONS := by
  rw [SPRITESHEET_EXTENSIONS] at h
  simp only [List.mem_cons, List.not_mem_nil, or_false] at h
  rcases h with rfl
  decide

lemma sheet_mem_not_font (e : String) (h : e ∈ SPRITESHEET_EXTENSIONS) : e ∉ FONT_EXTENSIONS := by
  rw [SPRITESHEET_EXTENSIONS] at h
  simp only [List.mem_cons, List.not_mem_nil, or_false] at h
  rcases h with rfl
  decide

lemma classifySeg_eq_image (o : Option String) :
    classifySeg o = some Category.image ↔ extMem o IMG_EXTENSIONS = true := by
  cases o with
  | none => simp [classifySeg, extMem]
  | some e =>
    simp only [classifySeg, extMem, contains_mem_iff]
    by_cases h1 : e ∈ IMG_EXTENSIONS
    · simp [h1]
    · simp only [h1, if_false, iff_false]
      split_ifs <;> simp

lemma classifySeg_eq_sound (o : Option String) :
    classifySeg o = some Category.sound ↔ extMem o SOUND_EXTENSIONS = true := by
  cases o with
  | none => simp [classifySeg, extMem]
  | some e =>
    simp only [classifySeg, extMem, contains_mem_iff]
    by_cases h2 : e ∈ SOUND_EXTENSIONS
    · have h1 := sound_mem_not_img e h2
      simp [h1, h2]
    · simp only [h2, if_false, iff_false]
      split_ifs <;> simp

lemma classifySeg_eq_font (o : Option String) :
    classifySeg o = some Category.font ↔ extMem o FONT_EXTENSIONS = true := by
  cases o with
  | none => simp [classifySeg, extMem]
  | some e =>
    simp only [classifySeg, extMem, contains_mem_iff]
    by_cases h3 : e ∈ FONT_EXTENSIONS
    · have h1 := font_mem_not_img e h3
      have h2 := font_mem_not_sound e h3
      simp [h1, h2, h3]
    · simp only [h3, if_false, iff_false]
      split_ifs <;> simp

lemma classifySeg_eq_sheet (o : Option String) :
    classifySeg o = some Category.spritesheet ↔ extMem o SPRITESHEET_EXTENSIONS = true := by
  cases o with
  | none => simp [classifySeg, extMem]
  | some e =>
    simp only [classifySeg, extMem, contains_mem_iff]
    by_cases h4 : e ∈ SPRITESHEET_EXTENSIONS
    · have h1 := sheet_mem_not_img e h4
      have h2 := sheet_mem_not_sound e h4
      have h3 := sheet_mem_not_font e h4
      simp [h1, h2, h3, h4]
    · simp only [h4, if_false, iff_false]
      split_ifs <;> simp

lemma importFile_assets (st : AMState) (f : String) :
    (importFile st f).assets = objSet st.assets (fileId f) (JsVal.url (fileUrl f)) := by
  unfold importFile
  dsimp only
  split_ifs <;> rfl

lemma importFile_images (st : AMState) (f : String) :
    (importFile st f).images
      = if extMem (firstExtSeg f) IMG_EXTENSIONS
          then objSet st.images (fileId f) (JsVal.url (fileUrl f)) else st.images := by
  unfold importFile
  dsimp only
  split_ifs <;> rfl

lemma importFile_sounds (st : AMState) (f : String) :
    (importFile st f).sounds
      = if extMem (firstExtSeg f) SOUND_EXTENSIONS
          then objSet st.sounds (fileId f) (JsVal.url (fileUrl f)) else st.sounds := by
  unfold importFile
  dsimp only
  split_ifs <;> rfl

lemma importFile_fonts (st : AMState) (f : String) :
    (importFile st f).fonts
      = if extMem (firstExtSeg f) FONT_EXTENSIONS
          then objSet st.fonts (fileId f) (JsVal.url (fileUrl f)) else st.fonts := by
  unfold importFile
  dsimp only
  split_ifs <;> rfl

lemma importFile_sheets (st : AMState) (f : String) :
    (importFile st f).spritesheets
      = if extMem (firstExtSeg f) SPRITESHEET_EXTENSIONS
          then objSet st.spritesheets (fileId f) (JsVal.url (fileUrl f)) else st.spritesheets := by
  unfold importFile
  dsimp only
  split_ifs <;> rfl

lemma importFile_cat (st : AMState) (f : String) (c : Category) :
    catMapOf c (importFile st f)
      = if classifyFile f = some c
          then objSet (catMapOf c st) (fileId f) (JsVal.url (fileUrl f))
          else catMapOf c st := by
  have conv1 : ∀ (L : List String)
      (hiff : classifySeg (firstExtSeg f) = some c ↔ extMem (firstExtSeg f) L = true)
      (m : List (String × JsVal)),
      (if extMem (firstExtSeg f) L then objSet m (fileId f) (JsVal.url (fileUrl f)) else m)
        = if classifyFile f = some c
            then objSet m (fileId f) (JsVal.url (fileUrl f)) else m := by
    intro L hiff m
    by_cases hcl : classifyFile f = some c
    · have hext : extMem (firstExtSeg f) L = true := hiff.mp hcl
      simp [hext, hcl]
    · have hext : extMem (firstExtSeg f) L = false := by
        cases hL : extMem (firstExtSeg f) L
        · rfl
        · exact absurd (hiff.mpr hL) hcl
      simp [hext, hcl]
  cases c with
  | image =>
    rw [show catMapOf Category.image (importFile st f) = (importFile st f).images from rfl,
        importFile_images]
    exact conv1 IMG_EXTENSIONS (classifySeg_eq_image _) st.images
  | sound =>
    rw [show catMapOf Category.sound (importFile st f) = (importFile st f).sounds from rfl,
        importFile_sounds]
    exact conv1 SOUND_EXTENSIONS (classifySeg_eq_sound _) st.sounds
  | font =>
    rw [show catMapOf Category.font (importFile st f) = (importFile st f).fonts from rfl,
        importFile_fonts]
    exact conv1 FONT_EXTENSIONS (classifySeg_eq_font _) st.fonts
  | spritesheet =>
    rw [show catMapOf Category.spritesheet (importFile st f) = (importFile st f).spritesheets from rfl,
        importFile_sheets]
    exact conv1 SPRITESHEET_EXTENSIONS (classifySeg_eq_sheet _) st.spritesheets

lemma importAssets_append (files : List String) (f : String) :
    importAssets (files ++ [f]) = importFile (importAssets files) f := by
  rw [importAssets, importAssets, List.foldl_append]
  rfl

/-! ## Helper lemma: the scan invariant -/

lemma importAssets_invariant (files : List String) (hnd : (files.map fileId).Nodup)
    (c : Category) (id : String) (v : JsVal)
    (hv : objGet (catMapOf c (importAssets files)) id = some v) :
    ∃ f, f ∈ files ∧ fileId f = id ∧ v = JsVal.url (fileUrl f)
      ∧ classifyFile f = some c
      ∧ objGet (importAssets files).assets id = some (JsVal.url (fileUrl f)) := by
  induction files using List.reverseRecOn with
  | nil =>
    exfalso
    cases c <;> simp [importAssets, emptyAM, catMapOf, objGet] at hv
  | append_singleton fs f ih =>
    rw [List.map_append, List.nodup_append] at hnd
    obtain ⟨hnd1, _, hdisj⟩ := hnd
    have hnf : fileId f ∉ fs.map fileId := by
      intro hm
      exact hdisj hm (by simp)
    rw [importAssets_append, importFile_cat] at hv
    by_cases hcl : classifyFile f = some c
    · rw [if_pos hcl] at hv
      by_cases hid : id = fileId f
      · subst hid
        rw [objGet_objSet_self] at hv
        refine ⟨f, by simp, rfl, ?_, hcl, ?_⟩
        · injection hv with h2
          exact h2.symm
        rw [importAssets_append, importFile_assets, objGet_objSet_self]
      · rw [objGet_objSet_ne _ _ _ _ hid] at hv
        obtain ⟨f0, hf0, hfid, hfv, hfc, hfa⟩ := ih hnd1 hv
        refine ⟨f0, by simp [hf0], hfid, hfv, hfc, ?_⟩
        rw [importAssets_append, importFile_assets, objGet_objSet_ne _ _ _ _ hid, hfa]
    · rw [if_neg hcl] at hv
      obtain ⟨f0, hf0, hfid, hfv, hfc, hfa⟩ := ih hnd1 hv
      have hid : id ≠ fileId f := by
        intro h
        apply hnf
        rw [← h, ← hfid]
        exact List.mem_map_of_mem fileId hf0
      refine ⟨f0, by simp [hf0], hfid, hfv, hfc, ?_⟩
      rw [importAssets_append, importFile_assets, objGet_objSet_ne _ _ _ _ hid, hfa]

/-! ## Claim theorems -/

/-- Claim C1, counterexample: the request `{images: {a: url}, sounds: {}}` has
exactly one non-empty category and its single item completes (the schedule
drains every queue), yet the final reported progress value is 50, not 100.
`assetTypesCount` divides by the number of keys present in the request object
(here 2), not by the number of non-empty categories (1); `Splash.preload`
really issues such requests (`sounds: {}`, `spritesheets: {}`). -/
theorem load_final_progress_counterexample :
    nonEmptyCount ⟨some [("a", JsVal.url "u")], some [], none, none⟩ = 1
    ∧ drainsB (loadQueues ⟨some [("a", JsVal.url "u")], some [], none, none⟩) [0] = true
    ∧ (loadRun ⟨some [("a", JsVal.url "u")], some [], none, none⟩ [0]).2 = [50] :=
  ⟨by decide, by with_unfolding_all decide, by with_unfolding_all decide⟩

/-- Claim C1, amended: if every category key present in the request maps to a
non-empty collection (so the key count equals the non-empty count), the fonts
and spritesheets categories hold at most one item each (their callbacks
receive the cumulative loader progress, so two or more items over-count), and
at least one category is present, then under every schedule that completes
all dispatched items the final reported progress value is exactly 100. -/
theorem load_final_progress_hundred (r : LoadRequest) (sched : List Nat)
    (h1 : presentNonEmptyB r = true)
    (h2 : cnt r.fonts ≤ 1) (h3 : cnt r.spritesheets ≤ 1)
    (h4 : 0 < presentCount r)
    (h5 : drainsB (loadQueues r) sched = true) :
    ((loadRun r sched).2).getLast? = some 100 := by
  rw [loadRun, loadTrace]
  exact final_report_100 (presentCount r) (loadQueues r) sched (loadQueues_length r h1) h4
    (loadQueues_sum r h2 h3) (loadQueues_members_ne_nil r) h5

/-- Claim C1, witness: the amended theorem applied to the one-image request
with the schedule that completes the image. -/
theorem load_final_progress_hundred_witness :
    presentNonEmptyB ⟨some [("a", JsVal.url "u")], none, none, none⟩ = true
    ∧ cnt (LoadRequest.mk (some [("a", JsVal.url "u")]) none none none).fonts ≤ 1
    ∧ 0 < presentCount ⟨some [("a", JsVal.url "u")], none, none, none⟩
    ∧ drainsB (loadQueues ⟨some [("a", JsVal.url "u")], none, none, none⟩) [0] = true
    ∧ ((loadRun ⟨some [("a", JsVal.url "u")], none, none, none⟩ [0]).2).getLast? = some 100 :=
  ⟨by decide, by decide, by decide, by with_unfolding_all decide,
    load_final_progress_hundred _ [0] (by decide) (by decide) (by decide) (by decide)
      (by with_unfolding_all decide)⟩

/-- Claim C2, evaluated at the failing input: for `load({sounds: {click: url}})`
with no completion event fired yet (the sound is still loading, or has
failed), the promise returned by `load` is already resolved — `Promise.all`
received the raw array that `loadSounds` returns, and an array is not a
thenable — while the sound sub-loader itself is unresolved.  This contradicts
the doc comment of `load` (resolved once all assets are loaded). -/
theorem load_resolves_with_pending_sounds :
    loadResolvedB (fun _ => false) ⟨none, some [("click", JsVal.url "click.wav")], none, none⟩ = true
    ∧ soundsSettledB (fun _ => false) [("click", JsVal.url "click.wav")] = false :=
  ⟨by decide, by decide⟩

/-- Claim C3: within one `load()` invocation, under every interleaving
schedule of the dispatched sub-loader events, the reported progress sequence
is non-decreasing, and every reported value is the running weighted sum
truncated to an integer: the truncation of (prefix sum of raw contributions)
divided by `assetTypesCount`. -/
theorem progress_monotone_truncated (r : LoadRequest) (sched : List Nat) :
    List.Chain' (· ≤ ·) ((loadRun r sched).2)
    ∧ (loadRun r sched).2
        = (prefixFrom 0 (loadTrace r sched)).map
            (fun s => jsParseInt (s / (presentCount r : ℚ))) := by
  constructor
  · rw [loadRun]
    exact runLoad_chain _ (Nat.cast_nonneg _) _
      (consumeAux_nonneg sched (loadQueues r) (loadQueues_nonneg r))
  · rw [loadRun]
    exact runLoad_reports _ _

/-- Claim C4, evaluated at the failing input: dispatching `loadSounds` for one
sound reports the raw value 100 synchronously — before any sound has loaded —
because `.then(progressCallback(100))` calls the callback immediately; no
completion handler is registered (the `undefined` result of that call is what
`.then` receives), and the `Howl` is already stored in the sounds map at
dispatch time.  The claimed behavior (zero until all sounds are done, then
the full weight once) does not occur. -/
theorem loadSounds_reports_at_dispatch :
    (loadSoundsModel [("click", JsVal.url "click.wav")] emptyAM).syncProgressCalls = [100]
    ∧ (loadSoundsModel [("click", JsVal.url "click.wav")] emptyAM).thenHandlerRegistered = false
    ∧ objGet (loadSoundsModel [("click", JsVal.url "click.wav")] emptyAM).state.sounds "click"
        = some (JsVal.howl (JsVal.url "click.wav")) :=
  ⟨rfl, rfl, by decide⟩

/-- Claim C5, counterexample: `/src/assets/b.x.png` has file extension `png`,
which the fixed table classifies as an image, yet the scan records it in the
combined map only and in no category map, while `/src/assets/a.png` (same
extension) is classified as an image: classification is not a function of the
file extension, because the code reads the segment between the first two dots
(here `x`). -/
theorem classification_not_by_extension_counterexample :
    fileExtension "/src/assets/b.x.png" = some "png"
    ∧ IMG_EXTENSIONS.contains "png" = true
    ∧ (importAssets ["/src/assets/b.x.png"]).images = []
    ∧ (importAssets ["/src/assets/b.x.png"]).assets = [("b", JsVal.url "/b.x.png")]
    ∧ fileExtension "/src/assets/a.png" = some "png"
    ∧ classifyFile "/src/assets/a.png" = some Category.image
    ∧ classifyFile "/src/assets/b.x.png" = none :=
  ⟨by decide, by decide, by decide, by decide, by decide, by decide, by decide⟩

/-- Claim C5, amended: every scanned file is recorded in the combined
manifest map, and its classification is a pure function of its FIRST
extension segment (the text between the first and second dots — equal to the
file extension exactly when the name has a single dot) according to the fixed
table; a file with an unknown or missing segment is written to no category
map, and the scan is total, raising no error. -/
theorem classification_by_first_segment (st : AMState) (f : String) :
    (importFile st f).assets = objSet st.assets (fileId f) (JsVal.url (fileUrl f))
    ∧ ∀ c : Category,
        catMapOf c (importFile st f)
          = if classifyFile f = some c
              then objSet (catMapOf c st) (fileId f) (JsVal.url (fileUrl f))
              else catMapOf c st :=
  ⟨importFile_assets st f, fun c => importFile_cat st f c⟩

/-- Claim C6, counterexample: loading the image request `{a: url1}` stores
nothing into the images category map — at dispatch the manager state is
untouched, and loader completion performs no manager-map write either; the
decoded resource lives only in the per-call PIXI loader. -/
theorem images_not_stored_counterexample :
    (loadAssetsModel [("a", JsVal.url "u1")] emptyAM).state = emptyAM
    ∧ objGet (loadAssetsCompleteStep
        (loadAssetsModel [("a", JsVal.url "u1")] emptyAM).state).images "a" = none
    ∧ (loadAssetsModel [("a", JsVal.url "u1")] emptyAM).loader = [("a", JsVal.url "u1")] :=
  ⟨rfl, rfl, rfl⟩

/-- Claim C6, amended: the images/fonts pairs are added to the fresh per-call
PIXI loader keyed by the requested id, and no phase of a `load()` call writes
the images or fonts category maps: dispatch leaves them unchanged (only the
sounds map is written at dispatch), loader completion is a no-op on manager
state, and spritesheet completion writes only the spritesheets map. -/
theorem images_fonts_maps_not_written (r : LoadRequest) (st : AMState)
    (m : List (String × JsVal)) (sheets : List (String × JsVal)) (rname : String) :
    (loadAssetsModel m st).loader = m
    ∧ (loadAssetsModel m st).state = st
    ∧ loadAssetsCompleteStep st = st
    ∧ (dispatchEffects r st).images = st.images
    ∧ (dispatchEffects r st).fonts = st.fonts
    ∧ (sheetProgressStep sheets st rname).images = st.images
    ∧ (sheetProgressStep sheets st rname).fonts = st.fonts := by
  refine ⟨rfl, rfl, rfl, ?_, ?_, rfl, rfl⟩
  · rcases hs : r.sounds with _ | snds
    · simp [dispatchEffects, hs]
    · simp only [dispatchEffects, hs]
      split_ifs
      · exact (storeSounds_other snds st).2.1
      · rfl
  · rcases hs : r.sounds with _ | snds
    · simp [dispatchEffects, hs]
    · simp only [dispatchEffects, hs]
      split_ifs
      · exact (storeSounds_other snds st).2.2.1
      · rfl

/-- Claim C7, counterexample: for the request `{a: descriptor}` whose
descriptor references the image `other.png`, the parsed spritesheet is stored
under the request key `a` — the loader registers and names the resource by
the requested id — and under no other key.  The storage key does not differ
from the request key. -/
theorem spritesheet_storage_key_counterexample :
    (loadSpritesheetsModel [("a", JsVal.data "other.png")]).loader = [("a", some "other.png")]
    ∧ (sheetProgressStep [("a", JsVal.data "other.png")] emptyAM "a").spritesheets
        = [("a", JsVal.sheet "a" (JsVal.data "other.png"))]
    ∧ objGet (sheetProgressStep [("a", JsVal.data "other.png")] emptyAM "a").spritesheets
        "other.png" = none :=
  ⟨rfl, by decide, by decide⟩

/-- Claim C7, amended: the parsed spritesheet is stored under the name of the
completing resource, and every resource of the spritesheet loader is named by
its request key, so the storage key always belongs to (and equals a key of)
the request map. -/
theorem spritesheet_stored_under_request_key (sheets : List (String × JsVal))
    (st : AMState) (id : String)
    (h : id ∈ (loadSpritesheetsModel sheets).loader.map Prod.fst) :
    objGet (sheetProgressStep sheets st id).spritesheets id
        = some (JsVal.sheet id ((objGet sheets id).getD JsVal.undef))
    ∧ id ∈ sheets.map Prod.fst := by
  constructor
  · exact objGet_objSet_self st.spritesheets id _
  · rw [loadSpritesheetsModel] at h
    simpa [List.map_map, Function.comp] using h

/-- Claim C7, witness: the amended theorem applied to the one-sheet request. -/
theorem spritesheet_stored_under_request_key_witness :
    ("a" ∈ (loadSpritesheetsModel [("a", JsVal.data "other.png")]).loader.map Prod.fst)
    ∧ objGet (sheetProgressStep [("a", JsVal.data "other.png")] emptyAM "a").spritesheets "a"
        = some (JsVal.sheet "a" (JsVal.data "other.png"))
    ∧ "a" ∈ ([("a", JsVal.data "other.png")] : List (String × JsVal)).map Prod.fst := by
  have h := spritesheet_stored_under_request_key [("a", JsVal.data "other.png")] emptyAM "a"
    (by decide)
  refine ⟨by decide, ?_, h.2⟩
  rw [h.1]
  decide

/-- Claim C8, counterexample: for `load({sounds: {a: url}})` where the sound
fails (its load event never fires), the returned signal does not fail — it is
already resolved — and the failed item IS populated in the sounds category
map, because the `Howl` is stored at dispatch time. -/
theorem failed_sound_populated_counterexample :
    loadResolvedB (fun _ => false) ⟨none, some [("a", JsVal.url "u")], none, none⟩ = true
    ∧ objGet (dispatchEffects ⟨none, some [("a", JsVal.url "u")], none, none⟩ emptyAM).sounds "a"
        = some (JsVal.howl (JsVal.url "u")) :=
  ⟨by decide, by decide⟩

/-- Claim C8, amended: item failures never reject the returned promise — once
the three loader completion callbacks have fired, `load()` is resolved
whatever happened to the sounds (no reject path exists anywhere); every
requested sound is stored into the sounds map at dispatch regardless of
outcome; and entries whose key is not re-requested are retained unchanged
(no rollback). -/
theorem load_failure_behavior (env : Gate → Bool) (r : LoadRequest) (st : AMState)
    (snds : List (String × JsVal)) (hs : r.sounds = some snds) :
    (env Gate.imagesDone = true → env Gate.fontsDone = true → env Gate.sheetsDone = true →
        loadResolvedB env r = true)
    ∧ (∀ p ∈ snds, (snds.map Prod.fst).Nodup →
        objGet (dispatchEffects r st).sounds p.1 = some (JsVal.howl p.2))
    ∧ (∀ (id : String) (v : JsVal), objGet st.sounds id = some v → id ∉ snds.map Prod.fst →
        objGet (dispatchEffects r st).sounds id = some v) := by
  refine ⟨?_, ?_, ?_⟩
  · intro h1 h2 h3
    rw [loadResolvedB, loadPromises]
    split_ifs <;>
      simp [settledForPromiseAll, soundsReturned, h1, h2, h3]
  · intro p hp hnd
    simp only [dispatchEffects, hs]
    split_ifs with hgt
    · exact storeSounds_mem snds st p hp hnd
    · exfalso
      have hz : snds.length = 0 := by
        simp only [cnt, Option.getD_some] at hgt
        omega
      rw [List.length_eq_zero] at hz
      subst hz
      simp at hp
  · intro id v hv hid
    simp only [dispatchEffects, hs]
    split_ifs
    · rw [storeSounds_preserve snds st id hid]
      exact hv
    · exact hv

/-- Claim C8, witness: the amended theorem applied to a one-sound request over
a state that already holds an older sound. -/
theorem load_failure_behavior_witness :
    loadResolvedB (fun _ => true) ⟨none, some [("a", JsVal.url "u")], none, none⟩ = true
    ∧ objGet (dispatchEffects ⟨none, some [("a", JsVal.url "u")], none, none⟩
        ⟨[], [], [("old", JsVal.howl (JsVal.url "v"))], [], []⟩).sounds "a"
        = some (JsVal.howl (JsVal.url "u"))
    ∧ objGet (dispatchEffects ⟨none, some [("a", JsVal.url "u")], none, none⟩
        ⟨[], [], [("old", JsVal.howl (JsVal.url "v"))], [], []⟩).sounds "old"
        = some (JsVal.howl (JsVal.url "v")) := by
  obtain ⟨h1, h2, h3⟩ := load_failure_behavior (fun _ => true)
    ⟨none, some [("a", JsVal.url "u")], none, none⟩
    ⟨[], [], [("old", JsVal.howl (JsVal.url "v"))], [], []⟩ [("a", JsVal.url "u")] rfl
  exact ⟨h1 rfl rfl rfl, h2 ("a", JsVal.url "u") (by decide) (by decide),
    h3 "old" (JsVal.howl (JsVal.url "v")) (by decide) (by decide)⟩

/-- Claim C9, counterexample: scanning `a.png` then `a.wav` — two files that
share the stripped id `a` — leaves `a` in the images map while the combined
manifest entry for `a` is the wav url, whose extension is not an image
extension: the matching-extension invariant fails on id collisions. -/
theorem manifest_invariant_counterexample :
    objGet (importAssets ["/src/assets/a.png", "/src/assets/a.wav"]).images "a"
        = some (JsVal.url "/a.png")
    ∧ objGet (importAssets ["/src/assets/a.png", "/src/assets/a.wav"]).assets "a"
        = some (JsVal.url "/a.wav")
    ∧ fileExtension "/a.wav" = some "wav"
    ∧ IMG_EXTENSIONS.contains "wav" = false :=
  ⟨by decide, by decide, by decide, by decide⟩

/-- Claim C9, amended: after a scan whose files have pairwise distinct
stripped ids, every entry of every category map comes from a scanned file
classified into that category, and the combined manifest maps its id to
exactly that file url (so the manifest entry has a matching extension
segment). -/
theorem scan_invariant_distinct_ids (files : List String)
    (hnd : (files.map fileId).Nodup) (c : Category) (id : String) (v : JsVal)
    (hv : objGet (catMapOf c (importAssets files)) id = some v) :
    ∃ f, f ∈ files ∧ fileId f = id ∧ v = JsVal.url (fileUrl f)
      ∧ classifyFile f = some c
      ∧ objGet (importAssets files).assets id = some (JsVal.url (fileUrl f)) :=
  importAssets_invariant files hnd c id v hv

/-- Claim C9, witness: the amended theorem applied to a one-file scan. -/
theorem scan_invariant_distinct_ids_witness :
    (["/src/assets/a.png"].map fileId).Nodup
    ∧ objGet (catMapOf Category.image (importAssets ["/src/assets/a.png"])) "a"
        = some (JsVal.url "/a.png")
    ∧ ∃ f, f ∈ ["/src/assets/a.png"] ∧ fileId f = "a"
        ∧ JsVal.url "/a.png" = JsVal.url (fileUrl f)
        ∧ classifyFile f = some Category.image
        ∧ objGet (importAssets ["/src/assets/a.png"]).assets "a"
            = some (JsVal.url (fileUrl f)) := by
  refine ⟨by decide, by decide, ?_⟩
  exact scan_invariant_distinct_ids ["/src/assets/a.png"] (by decide) Category.image "a"
    (JsVal.url "/a.png") (by decide)

/-- Claim C10: calling `load()` with no argument substitutes the default
request built from exactly the four category maps of the scanned manifest,
with all four category keys present. -/
theorem default_request_is_whole_manifest (files : List String) :
    requestOf none (importAssets files)
      = ⟨some (importAssets files).images, some (importAssets files).sounds,
          some (importAssets files).fonts, some (importAssets files).spritesheets⟩
    ∧ presentCount (requestOf none (importAssets files)) = 4 :=
  ⟨rfl, rfl⟩
